import Mathlib

/-!
Shallow embedding of the Ranking-agent repository (a Google-rank tracker).

The embedding covers, faithfully to the JavaScript source:
* `RankingAnalyzer.saveResults`, `RankingAnalyzer.generateReport` and
  `RankingAnalyzer.getKeywordSummary` (analyzer module);
* the page loop of `GoogleSearcher.search` and `GoogleSearcher.close`
  (searcher module).

Timestamps are modelled as natural numbers (milliseconds since the epoch):
the source stores ISO-8601 strings and compares them via `new Date(...)`
subtraction, which orders them exactly like their numeric epoch values.
Nullable JavaScript values are modelled as `Option`; JavaScript truthiness
of nullable numbers is modelled explicitly (`null` and `0` are falsy).
External effects of the searcher (browser navigation, DOM scraping,
exceptions) are modelled as oracle inputs describing what the browser did
during each page of the loop.
-/

namespace RankingAgent

/-- JS truthiness of a nullable number: `null`/`undefined` and `0` are falsy,
every other number is truthy.  Models the checks `if (ranking)`,
`if (entry.rank)`, `if (latest.rank)` and `latest.rank && previous.rank`
in the analyzer. -/
def jsTruthyNum : Option Nat → Bool
  | none => false
  | some n => n != 0

/-- Whether `needle` occurs as a contiguous run inside `hay`. -/
def occursIn (needle : List Char) : List Char → Bool
  | [] => needle.isEmpty
  | c :: rest => needle.isPrefixOf (c :: rest) || occursIn needle rest

/-- JS `s.includes(sub)`: `sub` occurs as a contiguous substring of `s`. -/
def jsIncludes (s sub : String) : Bool := occursIn sub.data s.data

/-- JS `a || b` for a nullable string `a`: yields `b` when `a` is
`null`/`undefined` or the empty string (all falsy), otherwise `a`.
Models `matchedResult.snippet || ''` in `saveResults`. -/
def jsOrString : Option String → String → String
  | none, b => b
  | some s, b => if s = "" then b else s

/-- A transient scraped search result: `{title, url, snippet}` as produced by
`page.evaluate` in the searcher.  `snippet` is `Option` because a result
object handed to `saveResults` may lack the field (`undefined`). -/
structure SearchResultItem where
  title : String
  url : String
  snippet : Option String
deriving DecidableEq, Repr

/-- A persisted ranking record, one element of the `rankings.json` array. -/
structure RankingRecord where
  keyword : String
  rank : Option Nat
  title : Option String
  url : Option String
  timestamp : Nat
  snippet : Option String
deriving DecidableEq, Repr

/-- The target domain fixed by the `RankingAnalyzer` constructor:
`this.targetDomain = 'webreinvent.com'`. -/
def targetDomain : String := "webreinvent.com"

/-- The scan loop of `saveResults`: walks `searchResults` from position `i`,
returning `(i0 + position, item)` for the first item whose url contains the
target domain (`ranking = i + 1`, `matchedResult = searchResults[i]`,
then `break`), and `none` when no item matches.  The second component is the
`matchedResult` variable, which the source sets together with `ranking`. -/
def findTarget : List SearchResultItem → Nat → Option (Nat × SearchResultItem)
  | [], _ => none
  | r :: rest, i =>
      if jsIncludes r.url targetDomain then some (i + 1, r)
      else findTarget rest (i + 1)

/-- Which log line `saveResults` emitted: `logger.info` with the found
position, or the `logger.warn` "not found" line. -/
inductive SaveLog where
  | found (position : Nat)
  | notFound
deriving DecidableEq, Repr

/-- `RankingAnalyzer.saveResults(keyword, searchResults)`: locates the target
domain in the results, then appends (`rankings.push`) exactly one new record
to the store read from disk and writes the store back.  Returns the written
store together with the log line.  The source guards the found branch with
`if (ranking)`, which is JS-truthy exactly when the scan matched, because a
returned ranking is always `i + 1 ≥ 1` (lemma `findTarget_rank_pos`). -/
def saveResults (keyword : String) (searchResults : List SearchResultItem)
    (timestamp : Nat) (rankings : List RankingRecord) :
    List RankingRecord × SaveLog :=
  match findTarget searchResults 0 with
  | some (ranking, matchedResult) =>
      (rankings ++ [{ keyword := keyword, rank := some ranking,
                      title := some matchedResult.title,
                      url := some matchedResult.url,
                      timestamp := timestamp,
                      snippet := some (jsOrString matchedResult.snippet "") }],
       SaveLog.found ranking)
  | none =>
      (rankings ++ [{ keyword := keyword, rank := none, title := none,
                      url := none, timestamp := timestamp, snippet := none }],
       SaveLog.notFound)

/-- Every ranking the scan loop returns is positive (it is `i + 1`), so the
source's `if (ranking)` truthiness test distinguishes exactly the match and
no-match cases. -/
lemma findTarget_rank_pos (rs : List SearchResultItem) (i0 k : Nat)
    (m : SearchResultItem) (h : findTarget rs i0 = some (k, m)) : 0 < k := by
  induction rs generalizing i0 with
  | nil => simp [findTarget] at h
  | cons r rest ih =>
      rw [findTarget] at h
      by_cases hr : jsIncludes r.url targetDomain = true
      · rw [if_pos hr] at h
        obtain ⟨hk, -⟩ := Prod.mk.injEq .. ▸ Option.some.injEq _ _ ▸ h
        omega
      · rw [if_neg hr] at h
        exact ih _ h

/-- When no result's url contains the target domain the scan returns `none`. -/
lemma findTarget_eq_none (rs : List SearchResultItem) (i0 : Nat)
    (h : ∀ r ∈ rs, jsIncludes r.url targetDomain = false) :
    findTarget rs i0 = none := by
  induction rs generalizing i0 with
  | nil => rfl
  | cons r rest ih =>
      rw [findTarget, if_neg (by simp [h r (List.mem_cons_self r rest)])]
      exact ih _ fun x hx => h x (List.mem_cons_of_mem r hx)

/-- When position `j` holds the first matching result, the scan starting at
offset `i0` returns `(i0 + j + 1, rs[j])`. -/
lemma findTarget_eq_some (rs : List SearchResultItem) (i0 j : Nat)
    (m : SearchResultItem) (hj : rs[j]? = some m)
    (hm : jsIncludes m.url targetDomain = true)
    (hfirst : ∀ j' m', j' < j → rs[j']? = some m' →
      jsIncludes m'.url targetDomain = false) :
    findTarget rs i0 = some (i0 + j + 1, m) := by
  induction rs generalizing i0 j with
  | nil => simp at hj
  | cons r rest ih =>
      cases j with
      | zero =>
          simp only [List.getElem?_cons_zero, Option.some.injEq] at hj
          subst hj
          rw [findTarget, if_pos hm]
      | succ j' =>
          have hr : jsIncludes r.url targetDomain = false :=
            hfirst 0 r (Nat.succ_pos j') (by simp)
          have hj'' : rest[j']? = some m := by simpa using hj
          have hfirst' : ∀ j'' m', j'' < j' → rest[j'']? = some m' →
              jsIncludes m'.url targetDomain = false := by
            intro j'' m' hlt hget
            exact hfirst (j'' + 1) m' (by omega) (by simpa using hget)
          rw [findTarget, if_neg (by simp [hr]), ih (i0 + 1) j' hj'' hfirst']
          have : i0 + 1 + j' + 1 = i0 + (j' + 1) + 1 := by omega
          rw [this]

/-- C1: for every keyword and list of search results, `saveResults` appends one
record whose rank is `1 +` the index of the first item whose url contains the
target-domain substring (`'webreinvent.com'`), or `null` when no item's url
contains it; when a match exists the record's title and url come from that
first matching item. -/
theorem saveResults_rank_correct (kw : String) (rs : List SearchResultItem)
    (ts : Nat) (store : List RankingRecord) :
    ∃ rec, (saveResults kw rs ts store).1 = store ++ [rec] ∧
      ((∀ r ∈ rs, jsIncludes r.url targetDomain = false) → rec.rank = none) ∧
      (∀ j m, rs[j]? = some m → jsIncludes m.url targetDomain = true →
        (∀ j' m', j' < j → rs[j']? = some m' →
          jsIncludes m'.url targetDomain = false) →
        rec.rank = some (j + 1) ∧ rec.title = some m.title ∧
          rec.url = some m.url) := by
  cases h : findTarget rs 0 with
  | none =>
      refine ⟨{ keyword := kw, rank := none, title := none, url := none,
                timestamp := ts, snippet := none }, ?_, fun _ => rfl, ?_⟩
      · simp [saveResults, h]
      · intro j m hj hm hfirst
        have := findTarget_eq_some rs 0 j m hj hm hfirst
        rw [h] at this
        cases this
  | some p =>
      obtain ⟨k, m0⟩ := p
      refine ⟨{ keyword := kw, rank := some k, title := some m0.title,
                url := some m0.url, timestamp := ts,
                snippet := some (jsOrString m0.snippet "") }, ?_, ?_, ?_⟩
      · simp [saveResults, h]
      · intro hnone
        have := findTarget_eq_none rs 0 hnone
        rw [h] at this
        cases this
      · intro j m hj hm hfirst
        have := findTarget_eq_some rs 0 j m hj hm hfirst
        rw [h] at this
        obtain ⟨h1, h2⟩ := Prod.mk.injEq .. ▸ Option.some.injEq _ _ ▸ this
        subst h2
        refine ⟨?_, rfl, rfl⟩
        simp only [Nat.zero_add] at h1
        rw [h1]

/-- A concrete run of C1: the second result is the first whose url contains
the target domain, so the appended record has rank 2 and that result's
title and url. -/
theorem saveResults_rank_correct_witness :
    ∃ rec,
      (saveResults "kw"
        [{ title := "Other", url := "https://example.com/", snippet := some "x" },
         { title := "WebReinvent", url := "https://webreinvent.com/laravel",
           snippet := some "y" }] 42 []).1 = [] ++ [rec] ∧
      rec.rank = some 2 ∧ rec.title = some "WebReinvent" ∧
      rec.url = some "https://webreinvent.com/laravel" := by
  obtain ⟨rec, hrec, -, hsome⟩ := saveResults_rank_correct "kw"
    [{ title := "Other", url := "https://example.com/", snippet := some "x" },
     { title := "WebReinvent", url := "https://webreinvent.com/laravel",
       snippet := some "y" }] 42 []
  obtain ⟨h1, h2, h3⟩ := hsome 1
    { title := "WebReinvent", url := "https://webreinvent.com/laravel",
      snippet := some "y" } rfl (by decide)
    (by
      intro j' m' hlt hget
      have hj0 : j' = 0 := by omega
      subst hj0
      simp only [List.getElem?_cons_zero, Option.some.injEq] at hget
      subst hget
      decide)
  exact ⟨rec, hrec, h1, h2, h3⟩

/-- C3: for every keyword, a `saveResults` call whose result list contains no
matching url (in particular the empty list) appends a record with `null`
rank, title, url and snippet, the given keyword and timestamp, and logs the
"not found" warning. -/
theorem saveResults_no_match_appends_null_record (kw : String)
    (rs : List SearchResultItem) (ts : Nat) (store : List RankingRecord)
    (h : ∀ r ∈ rs, jsIncludes r.url targetDomain = false) :
    saveResults kw rs ts store =
      (store ++ [{ keyword := kw, rank := none, title := none, url := none,
                   timestamp := ts, snippet := none }],
       SaveLog.notFound) := by
  rw [saveResults, findTarget_eq_none rs 0 h]

/-- A concrete run of C3: saving an empty result list appends the all-null
record (keyword and timestamp aside) and logs the warning. -/
theorem saveResults_no_match_witness :
    saveResults "kw" [] 7 [] =
      ([{ keyword := "kw", rank := none, title := none, url := none,
          timestamp := 7, snippet := none }], SaveLog.notFound) :=
  saveResults_no_match_appends_null_record "kw" [] 7 [] (by simp)

/-- C5: `saveResults` is append-only: the written store is exactly the old
store, unchanged and in order, followed by one new record. -/
theorem saveResults_append_only (kw : String) (rs : List SearchResultItem)
    (ts : Nat) (store : List RankingRecord) :
    ∃ rec, (saveResults kw rs ts store).1 = store ++ [rec] ∧
      ((saveResults kw rs ts store).1).length = store.length + 1 ∧
      ((saveResults kw rs ts store).1).take store.length = store := by
  obtain ⟨rec, hrec⟩ : ∃ rec, (saveResults kw rs ts store).1 = store ++ [rec] := by
    cases h : findTarget rs 0 with
    | none =>
        exact ⟨{ keyword := kw, rank := none, title := none, url := none,
                 timestamp := ts, snippet := none }, by simp [saveResults, h]⟩
    | some p =>
        obtain ⟨k, m0⟩ := p
        exact ⟨{ keyword := kw, rank := some k, title := some m0.title,
                 url := some m0.url, timestamp := ts,
                 snippet := some (jsOrString m0.snippet "") },
               by simp [saveResults, h]⟩
  refine ⟨rec, hrec, ?_, ?_⟩
  · rw [hrec]
    simp
  · rw [hrec]
    exact List.take_left store [rec]

/-- C10: the record appended by `saveResults` has a non-null snippet whenever
its rank is non-null (a missing or empty snippet on the matched item is
persisted as `''`), and its snippet is null only when its rank is null. -/
theorem saveResults_snippet_invariant (kw : String) (rs : List SearchResultItem)
    (ts : Nat) (store : List RankingRecord) :
    ∃ rec, (saveResults kw rs ts store).1 = store ++ [rec] ∧
      (rec.rank ≠ none → rec.snippet ≠ none) ∧
      (rec.snippet = none → rec.rank = none) ∧
      (∀ k m, findTarget rs 0 = some (k, m) →
        (m.snippet = none ∨ m.snippet = some "") → rec.snippet = some "") := by
  cases h : findTarget rs 0 with
  | none =>
      refine ⟨{ keyword := kw, rank := none, title := none, url := none,
                timestamp := ts, snippet := none }, by simp [saveResults, h],
              fun hc => absurd rfl hc, fun _ => rfl, ?_⟩
      intro k m hk
      exact Option.noConfusion hk
  | some p =>
      obtain ⟨k, m0⟩ := p
      refine ⟨{ keyword := kw, rank := some k, title := some m0.title,
                url := some m0.url, timestamp := ts,
                snippet := some (jsOrString m0.snippet "") },
              by simp [saveResults, h], fun _ => by simp, by simp, ?_⟩
      intro k' m' hk' hnull
      obtain ⟨-, hm⟩ := Prod.mk.injEq .. ▸ Option.some.injEq _ _ ▸ hk'
      subst hm
      rcases hnull with hn | hn <;> simp [hn, jsOrString]

/-- A concrete run of C10: the matched item has no snippet field, and the
persisted snippet is the empty string, not null. -/
theorem saveResults_snippet_invariant_witness :
    ∃ rec,
      (saveResults "kw"
        [{ title := "WebReinvent", url := "https://webreinvent.com/",
           snippet := none }] 9 []).1 = [] ++ [rec] ∧
      rec.snippet = some "" := by
  obtain ⟨rec, hrec, -, -, hsnip⟩ := saveResults_snippet_invariant "kw"
    [{ title := "WebReinvent", url := "https://webreinvent.com/",
       snippet := none }] 9 []
  exact ⟨rec, hrec, hsnip 1
    { title := "WebReinvent", url := "https://webreinvent.com/",
      snippet := none } (by decide) (Or.inl rfl)⟩

/-- One step of the `reduce` in `generateReport` that groups the store records
by keyword: pushes `r` onto the group of key `kw`, creating the key at the
end when absent (JS object keys iterate in first-appearance order). -/
def addToGroup (kw : String) (r : RankingRecord) :
    List (String × List RankingRecord) → List (String × List RankingRecord)
  | [] => [(kw, [r])]
  | (k, g) :: rest =>
      if k = kw then (k, g ++ [r]) :: rest
      else (k, g) :: addToGroup kw r rest

/-- The `byKeyword` grouping of `generateReport`: records grouped by keyword,
keys in order of first appearance, each group in store order. -/
def groupByKeyword (records : List RankingRecord) :
    List (String × List RankingRecord) :=
  records.foldl (fun acc r => addToGroup r.keyword r acc) []

/-- Models `results.sort((a, b) => new Date(b.timestamp) - new Date(a.timestamp))`:
a stable sort by timestamp descending (JS `Array.prototype.sort` is stable). -/
def sortRecordsDesc (l : List RankingRecord) : List RankingRecord :=
  List.insertionSort (fun a b => b.timestamp ≤ a.timestamp) l

instance : IsTotal RankingRecord (fun a b => b.timestamp ≤ a.timestamp) :=
  ⟨fun a b => Nat.le_total b.timestamp a.timestamp⟩

instance : IsTrans RankingRecord (fun a b => b.timestamp ≤ a.timestamp) :=
  ⟨fun _ _ _ hab hbc => Nat.le_trans hbc hab⟩

/-- The trend marker of the console report. -/
inductive Trend where
  | improved
  | dropped
  | noChange
  | na
deriving DecidableEq, Repr

/-- The nested conditional computing the trend string in `generateReport`:
`latest.rank && previous.rank ? (latest.rank < previous.rank ? Improved :
latest.rank > previous.rank ? Dropped : No change) : N/A`.  Both ranks must
be JS-truthy (non-null, and a rank written by `saveResults` is never 0) for
the numeric comparison to happen. -/
def trendOf (latest previous : RankingRecord) : Trend :=
  if jsTruthyNum latest.rank && jsTruthyNum previous.rank then
    if latest.rank.getD 0 < previous.rank.getD 0 then Trend.improved
    else if previous.rank.getD 0 < latest.rank.getD 0 then Trend.dropped
    else Trend.noChange
  else Trend.na

/-- What the console report prints for one keyword group: the latest rank
(`latest.rank || 'Not Found'`, so `none` prints "Not Found"), the latest
title/url only when the latest rank is truthy, and the trend line only when
the group has more than one record. -/
structure KeywordBlock where
  keyword : String
  latestRankShown : Option Nat
  shownTitle : Option String
  shownUrl : Option String
  trend : Option Trend
deriving DecidableEq, Repr

/-- The per-keyword body of the console branch of `generateReport`: sorts the
group by timestamp descending, takes `latest = results[0]`, and prints the
trend only under `if (results.length > 1)`, comparing against
`previous = results[1]`. -/
def consoleBlock (kw : String) (group : List RankingRecord) : KeywordBlock :=
  match sortRecordsDesc group with
  | [] =>
      { keyword := kw, latestRankShown := none, shownTitle := none,
        shownUrl := none, trend := none }
  | latest :: rest =>
      { keyword := kw,
        latestRankShown := if jsTruthyNum latest.rank then latest.rank else none,
        shownTitle := if jsTruthyNum latest.rank then latest.title else none,
        shownUrl := if jsTruthyNum latest.rank then latest.url else none,
        trend :=
          match rest with
          | [] => none
          | previous :: _ => some (trendOf latest previous) }

/-- Which output format `generateReport` was asked for. -/
inductive ReportFormat where
  | console
  | csv
deriving DecidableEq, Repr

/-- The observable output of one `generateReport` call: whether the
"No ranking data available" warning was logged, the console blocks printed,
and the rows of the CSV file if one was created. -/
structure ReportOutput where
  noDataWarning : Bool
  consoleBlocks : List KeywordBlock
  csvRows : Option (List RankingRecord)
deriving DecidableEq, Repr

/-- `RankingAnalyzer.generateReport(format)`: returns early with a warning on
an empty store; otherwise the csv branch writes all records in store order
and the console branch prints one block per keyword group. -/
def generateReport (records : List RankingRecord) (format : ReportFormat) :
    ReportOutput :=
  if records.length = 0 then
    { noDataWarning := true, consoleBlocks := [], csvRows := none }
  else
    match format with
    | ReportFormat.csv =>
        { noDataWarning := false, consoleBlocks := [], csvRows := some records }
    | ReportFormat.console =>
        { noDataWarning := false,
          consoleBlocks :=
            (groupByKeyword records).map fun p => consoleBlock p.1 p.2,
          csvRows := none }

/-- C7: on an empty store `generateReport` logs the warning and produces no
output in either format: no console blocks and no CSV file. -/
theorem generateReport_empty_store (format : ReportFormat) :
    generateReport [] format =
      { noDataWarning := true, consoleBlocks := [], csvRows := none } := rfl

/-- C2 as stated is false: a keyword with a single record gets no trend line
at all (the source prints the trend only under `if (results.length > 1)`),
not an "N/A" marker. -/
theorem generateReport_trend_counterexample :
    (generateReport
      [{ keyword := "kw", rank := some 3, title := some "t", url := some "u",
         timestamp := 10, snippet := some "s" }]
      ReportFormat.console).consoleBlocks.map KeywordBlock.trend = [none] ∧
    (none : Option Trend) ≠ some Trend.na := by
  exact ⟨rfl, by simp⟩

/-- C2 (amended): in the console report each keyword group is sorted by
timestamp descending; when the sorted group has at least two records the
printed trend marker compares the latest against the second-most-recent
record — improved when the latest rank is numerically smaller, dropped when
larger, no change when equal, and N/A when either of the two ranks is null —
while a group with fewer than two records gets no trend marker at all. -/
theorem generateReport_trend_correct (records : List RankingRecord)
    (kw : String) (g : List RankingRecord) (hr : records ≠ [])
    (hg : (kw, g) ∈ groupByKeyword records) :
    consoleBlock kw g ∈
      (generateReport records ReportFormat.console).consoleBlocks ∧
    List.Pairwise (fun a b => b.timestamp ≤ a.timestamp) (sortRecordsDesc g) ∧
    ((sortRecordsDesc g).length < 2 → (consoleBlock kw g).trend = none) ∧
    (∀ latest previous rest, sortRecordsDesc g = latest :: previous :: rest →
      (consoleBlock kw g).trend = some (trendOf latest previous)) ∧
    (∀ latest previous lr pr, latest.rank = some lr → previous.rank = some pr →
      0 < lr → 0 < pr →
      trendOf latest previous =
        (if lr < pr then Trend.improved
         else if pr < lr then Trend.dropped else Trend.noChange)) ∧
    (∀ latest previous : RankingRecord,
      latest.rank = none ∨ previous.rank = none →
      trendOf latest previous = Trend.na) := by
  refine ⟨?_, ?_, ?_, ?_, ?_, ?_⟩
  · have hlen : ¬records.length = 0 := by
      simpa [List.length_eq_zero] using hr
    rw [generateReport, if_neg hlen]
    exact List.mem_map_of_mem (fun p => consoleBlock p.1 p.2) hg
  · exact List.sorted_insertionSort (fun a b => b.timestamp ≤ a.timestamp) g
  · intro hlen
    rw [consoleBlock]
    rcases hsort : sortRecordsDesc g with - | ⟨latest, - | ⟨previous, rest⟩⟩
    · simp
    · simp
    · rw [hsort] at hlen
      simp only [List.length_cons] at hlen
      omega
  · intro latest previous rest hsort
    rw [consoleBlock, hsort]
  · intro latest previous lr pr hl hp hlr hpr
    have htl : jsTruthyNum latest.rank = true := by
      rw [hl]; simpa [jsTruthyNum] using Nat.pos_iff_ne_zero.mp hlr
    have htp : jsTruthyNum previous.rank = true := by
      rw [hp]; simpa [jsTruthyNum] using Nat.pos_iff_ne_zero.mp hpr
    rw [trendOf, htl, htp, hl, hp]
    simp
  · intro latest previous hnull
    rcases hnull with hn | hn <;>
      rw [trendOf, hn] <;> simp [jsTruthyNum]

/-- A concrete run of C2 (amended): two records for one keyword, the more
recent one better ranked, so the printed trend is "Improved". -/
theorem generateReport_trend_correct_witness :
    (consoleBlock "kw"
      [{ keyword := "kw", rank := some 5, title := some "a", url := some "u1",
         timestamp := 1, snippet := some "" },
       { keyword := "kw", rank := some 3, title := some "b", url := some "u2",
         timestamp := 2, snippet := some "" }]).trend =
      some Trend.improved := by
  have h := generateReport_trend_correct
    [{ keyword := "kw", rank := some 5, title := some "a", url := some "u1",
       timestamp := 1, snippet := some "" },
     { keyword := "kw", rank := some 3, title := some "b", url := some "u2",
       timestamp := 2, snippet := some "" }]
    "kw"
    [{ keyword := "kw", rank := some 5, title := some "a", url := some "u1",
       timestamp := 1, snippet := some "" },
     { keyword := "kw", rank := some 3, title := some "b", url := some "u2",
       timestamp := 2, snippet := some "" }]
    (by simp) (by decide)
  rw [h.2.2.2.1
    { keyword := "kw", rank := some 3, title := some "b", url := some "u2",
      timestamp := 2, snippet := some "" }
    { keyword := "kw", rank := some 5, title := some "a", url := some "u1",
      timestamp := 1, snippet := some "" }
    [] (by decide)]
  rw [h.2.2.2.2.1 _ _ 3 5 rfl rfl (by omega) (by omega)]
  simp

/-- Log lines of the searcher module relevant to the page loop. -/
inductive SearchLogEvent where
  | captchaDetected
  | captchaTimeout
  | foundResults (count : Nat)
  | searchError (msg : String)
deriving DecidableEq, Repr

/-- The externally determined behaviour of the browser during one iteration of
the page loop of `GoogleSearcher.search` (an oracle input):
* `throws msg` — some awaited step of the iteration raised an exception
  (e.g. the 30s `page.goto` timed out), which aborts the whole `try` block;
* `loaded captcha navCompleted scraped` — navigation completed; `captcha`
  records whether `form#captcha-form` was present, `navCompleted` whether the
  awaited 60s `waitForNavigation` resolved before its timeout, and `scraped`
  what `page.evaluate` extracted from whatever page was then loaded. -/
inductive PageStep where
  | throws (msg : String)
  | loaded (captcha : Bool) (navCompleted : Bool)
      (scraped : List SearchResultItem)
deriving DecidableEq, Repr

/-- One iteration of the page loop.  On the CAPTCHA branch the source awaits
`waitForNavigation(...).catch(() => { logger.error(...); return []; })`: the
`[]` returned by the catch callback is the value of the awaited expression,
which the source discards, so after logging the timeout the iteration falls
through to `page.evaluate` and contributes `scraped` either way. -/
def processPage : PageStep → Except String (List SearchResultItem × List SearchLogEvent)
  | PageStep.throws msg => Except.error msg
  | PageStep.loaded captcha navCompleted scraped =>
      let captchaLogs :=
        if captcha then
          if navCompleted then [SearchLogEvent.captchaDetected]
          else [SearchLogEvent.captchaDetected, SearchLogEvent.captchaTimeout]
        else []
      Except.ok (scraped, captchaLogs ++ [SearchLogEvent.foundResults scraped.length])

/-- The `for (pageNum ...)` loop of `search` with its accumulated `results`
and log, wrapped in the surrounding `try`/`catch`: the first exception is
caught, logged (`Search failed: ...`) and ends the loop; the accumulated
results are returned in every case. -/
def searchGo : List PageStep → List SearchResultItem → List SearchLogEvent →
    List SearchResultItem × List SearchLogEvent
  | [], acc, logs => (acc, logs)
  | step :: rest, acc, logs =>
      match processPage step with
      | Except.ok (items, stepLogs) => searchGo rest (acc ++ items) (logs ++ stepLogs)
      | Except.error msg => (acc, logs ++ [SearchLogEvent.searchError msg])

/-- `GoogleSearcher.search(keyword, numPages)`: runs the page loop over the
oracle steps (one per attempted page) and returns the accumulated results
and log.  The return type has no error component: the source's `catch`
swallows every exception and the `finally` only closes the page. -/
def search (steps : List PageStep) :
    List SearchResultItem × List SearchLogEvent :=
  searchGo steps [] []

/-- Oracle steps for pages that did not raise. -/
def loadedSteps (pages : List (Bool × Bool × List SearchResultItem)) :
    List PageStep :=
  pages.map fun p => PageStep.loaded p.1 p.2.1 p.2.2

lemma searchGo_loaded_fst (pages : List (Bool × Bool × List SearchResultItem)) :
    ∀ (acc : List SearchResultItem) (logs : List SearchLogEvent),
      (searchGo (loadedSteps pages) acc logs).1 =
        acc ++ (pages.map fun p => p.2.2).flatten := by
  induction pages with
  | nil => intro acc logs; simp [loadedSteps, searchGo]
  | cons p rest ih =>
      intro acc logs
      simp only [loadedSteps, List.map_cons] at ih ⊢
      rw [searchGo]
      simp only [processPage]
      rw [ih]
      simp

lemma searchGo_throws (pages : List (Bool × Bool × List SearchResultItem)) :
    ∀ (msg : String) (post : List PageStep) (acc : List SearchResultItem)
      (logs : List SearchLogEvent),
      searchGo (loadedSteps pages ++ PageStep.throws msg :: post) acc logs =
        ((searchGo (loadedSteps pages) acc logs).1,
         (searchGo (loadedSteps pages) acc logs).2 ++
           [SearchLogEvent.searchError msg]) := by
  induction pages with
  | nil =>
      intro msg post acc logs
      simp [loadedSteps, searchGo, processPage]
  | cons p rest ih =>
      intro msg post acc logs
      simp only [loadedSteps, List.map_cons, List.cons_append] at ih ⊢
      rw [searchGo]
      simp only [processPage]
      rw [ih]
      rw [searchGo]
      simp only [processPage]

/-- C6: `search` never propagates an exception.  Whenever an exception is
raised during some page's lifetime (after any number of successfully scraped
pages), the call logs the error and returns exactly the results accumulated
so far — possibly the empty list — the same value an all-successful run over
those pages returns; in particular a failed search is indistinguishable from
a search that found zero results. -/
theorem search_never_propagates (pages : List (Bool × Bool × List SearchResultItem))
    (msg : String) (post : List PageStep) :
    (search (loadedSteps pages ++ PageStep.throws msg :: post)).1 =
      (pages.map fun p => p.2.2).flatten ∧
    (search (loadedSteps pages)).1 = (pages.map fun p => p.2.2).flatten ∧
    (search (loadedSteps pages ++ PageStep.throws msg :: post)).2 =
      (search (loadedSteps pages)).2 ++ [SearchLogEvent.searchError msg] ∧
    (search [PageStep.throws msg]).1 =
      (search [PageStep.loaded false true []]).1 := by
  refine ⟨?_, ?_, ?_, ?_⟩
  · simp only [search]
    rw [searchGo_throws]
    rw [searchGo_loaded_fst]
    simp
  · simp only [search]
    rw [searchGo_loaded_fst]
    simp
  · simp only [search]
    rw [searchGo_throws]
  · rfl

/-- C8 failing input: CAPTCHA form present, the 60s `waitForNavigation` times
out, and the still-loaded page yields one scrapable node.  The code logs the
timeout and then scrapes the stale page anyway — the `[]` returned by the
catch callback is discarded — so the page contributes that node, not the
empty result list the claim (and the catch callback) intend. -/
theorem search_captcha_timeout_eval :
    search [PageStep.loaded true false
      [{ title := "Stale", url := "https://example.com/",
         snippet := some "left over" }]] =
      ([{ title := "Stale", url := "https://example.com/",
          snippet := some "left over" }],
       [SearchLogEvent.captchaDetected, SearchLogEvent.captchaTimeout,
        SearchLogEvent.foundResults 1]) := rfl

/-- The state of a `GoogleSearcher`: `this.browser`, which is `null` until
`initialize()` runs and after `close()`.  The browser instance itself is an
external resource, modelled as an opaque handle. -/
structure GoogleSearcher where
  browser : Option Nat
deriving DecidableEq, Repr

/-- `GoogleSearcher.close()`: `if (this.browser) { await this.browser.close();
this.browser = null; }`.  Returns the updated state and whether a browser
instance was released by this call. -/
def closeSearcher (s : GoogleSearcher) : GoogleSearcher × Bool :=
  match s.browser with
  | some _ => ({ browser := none }, true)
  | none => (s, false)

/-- C9: `close()` is idempotent: it releases the browser instance exactly when
one is present, leaves the searcher with no browser, and a second call (or a
call on a searcher that never initialized a browser) releases nothing and
changes nothing. -/
theorem closeSearcher_idempotent (s : GoogleSearcher) :
    ((closeSearcher s).1).browser = none ∧
    closeSearcher (closeSearcher s).1 = ((closeSearcher s).1, false) ∧
    (∀ b, s.browser = some b → (closeSearcher s).2 = true) ∧
    (s.browser = none → closeSearcher s = (s, false)) := by
  cases s with
  | mk b =>
      cases b with
      | none => exact ⟨rfl, rfl, fun b hb => Option.noConfusion hb, fun _ => rfl⟩
      | some n =>
          exact ⟨rfl, rfl, fun b hb => rfl, fun h => Option.noConfusion h⟩

/-- A concrete run of C9: closing a searcher holding a browser releases it;
closing again is a no-op that releases nothing. -/
theorem closeSearcher_idempotent_witness :
    (closeSearcher { browser := some 1 }).2 = true ∧
    closeSearcher (closeSearcher { browser := some 1 }).1 =
      ((closeSearcher { browser := some 1 }).1, false) := by
  have h := closeSearcher_idempotent { browser := some 1 }
  exact ⟨h.2.2.1 1 rfl, h.2.1⟩

/-- One entry of a keyword's ranked history in `getKeywordSummary`:
`{rank, date}` pushed for every store record with a truthy rank. -/
structure HistEntry where
  rank : Nat
  date : Nat
deriving DecidableEq, Repr

/-- The per-keyword summary returned by `getKeywordSummary`. -/
structure KeywordSummary where
  current : Option Nat
  best : Option Nat
  worst : Option Nat
  history : List HistEntry
deriving DecidableEq, Repr

/-- The history contribution of one store record in `getKeywordSummary`'s
`forEach`: pushed exactly when `if (entry.rank)` is truthy. -/
def histOf (e : RankingRecord) : List HistEntry :=
  if jsTruthyNum e.rank then [{ rank := e.rank.getD 0, date := e.timestamp }]
  else []

/-- Appending a record's history contribution to the association list built by
`getKeywordSummary`'s `forEach`: the key is created (with exactly this
contribution) when absent — the source first creates `summary[kw]` with an
empty history, then pushes — and extended in place when present. -/
def addHist (kw : String) (h : List HistEntry) :
    List (String × List HistEntry) → List (String × List HistEntry)
  | [] => [(kw, h)]
  | (k, g) :: rest =>
      if k = kw then (k, g ++ h) :: rest
      else (k, g) :: addHist kw h rest

/-- The `forEach` accumulation of `getKeywordSummary`: one association-list
entry per keyword (in first-appearance order) holding that keyword's raw
history in store order. -/
def buildHistories (records : List RankingRecord) :
    List (String × List HistEntry) :=
  records.foldl (fun acc e => addHist e.keyword (histOf e) acc) []

/-- Models `data.history.sort((a, b) => new Date(b.date) - new Date(a.date))`:
a stable sort by date descending. -/
def sortHistDesc (l : List HistEntry) : List HistEntry :=
  List.insertionSort (fun a b => b.date ≤ a.date) l

instance : IsTotal HistEntry (fun a b => b.date ≤ a.date) :=
  ⟨fun a b => Nat.le_total b.date a.date⟩

instance : IsTrans HistEntry (fun a b => b.date ≤ a.date) :=
  ⟨fun _ _ _ hab hbc => Nat.le_trans hbc hab⟩

/-- The statistics step of `getKeywordSummary` for one keyword: the source
tests `if (data.history.length > 0)`, then sorts in place and sets
`current = history[0].rank`, `best = Math.min(...ranks)`,
`worst = Math.max(...ranks)`; with an empty history all three stay null.
Matching on the sorted list is equivalent: sorting the empty list yields the
empty list, and both branches then leave the null defaults. -/
def summarize (h : List HistEntry) : KeywordSummary :=
  match sortHistDesc h with
  | [] => { current := none, best := none, worst := none, history := [] }
  | top :: rest =>
      { current := some top.rank,
        best := some ((rest.map HistEntry.rank).foldl Nat.min top.rank),
        worst := some ((rest.map HistEntry.rank).foldl Nat.max top.rank),
        history := top :: rest }

/-- `RankingAnalyzer.getKeywordSummary()`: per-keyword summaries, keys in
first-appearance order. -/
def getKeywordSummary (records : List RankingRecord) :
    List (String × KeywordSummary) :=
  (buildHistories records).map fun p => (p.1, summarize p.2)

/-- The raw (unsorted) history `buildHistories` associates with `kw`: the
history contributions of the records with that keyword, in store order. -/
def rankedHistOf (records : List RankingRecord) (kw : String) :
    List HistEntry :=
  ((records.filter fun e => e.keyword == kw).map histOf).flatten

lemma rankedHistOf_cons (e : RankingRecord) (rest : List RankingRecord)
    (kw : String) :
    rankedHistOf (e :: rest) kw =
      (if e.keyword == kw then histOf e else []) ++ rankedHistOf rest kw := by
  by_cases he : e.keyword = kw <;> simp [rankedHistOf, he]

lemma addHist_lookup_self (kw : String) (h : List HistEntry)
    (acc : List (String × List HistEntry)) :
    (addHist kw h acc).lookup kw = some (((acc.lookup kw).getD []) ++ h) := by
  induction acc with
  | nil => simp [addHist, List.lookup]
  | cons p rest ih =>
      obtain ⟨k, g⟩ := p
      by_cases hk : k = kw
      · subst hk
        simp [addHist, List.lookup]
      · have hk' : (kw == k) = false := by
          simp [Ne.symm hk]
        rw [addHist, if_neg hk]
        simp only [List.lookup, hk']
        exact ih

lemma addHist_lookup_other (kw : String) (h : List HistEntry)
    (acc : List (String × List HistEntry)) (kw' : String) (hne : kw' ≠ kw) :
    (addHist kw h acc).lookup kw' = acc.lookup kw' := by
  induction acc with
  | nil =>
      have hne' : (kw' == kw) = false := by simp [hne]
      simp [addHist, List.lookup, hne']
  | cons p rest ih =>
      obtain ⟨k, g⟩ := p
      by_cases hk : k = kw
      · subst hk
        simp only [addHist, if_pos rfl, List.lookup]
        have hk' : (kw' == k) = false := by simp [hne]
        simp [hk']
      · rw [addHist, if_neg hk]
        simp only [List.lookup]
        cases hkk : kw' == k with
        | true => rfl
        | false => exact ih

lemma buildHistories_go_lookup_some (records : List RankingRecord) :
    ∀ (acc : List (String × List HistEntry)) (kw : String)
      (g : List HistEntry), acc.lookup kw = some g →
      (records.foldl (fun a e => addHist e.keyword (histOf e) a) acc).lookup kw
        = some (g ++ rankedHistOf records kw) := by
  induction records with
  | nil =>
      intro acc kw g hg
      simp [rankedHistOf, hg]
  | cons e rest ih =>
      intro acc kw g hg
      rw [List.foldl_cons]
      by_cases he : e.keyword = kw
      · have h1 : (addHist e.keyword (histOf e) acc).lookup kw =
            some (g ++ histOf e) := by
          rw [he, addHist_lookup_self, hg]
          rfl
        rw [ih _ _ _ h1, rankedHistOf_cons]
        simp [he, List.append_assoc]
      · have h1 : (addHist e.keyword (histOf e) acc).lookup kw = some g := by
          rw [addHist_lookup_other _ _ _ _ (Ne.symm he)]
          exact hg
        rw [ih _ _ _ h1, rankedHistOf_cons]
        simp [he]

lemma buildHistories_go_lookup_none (records : List RankingRecord) :
    ∀ (acc : List (String × List HistEntry)) (kw : String),
      acc.lookup kw = none →
      (records.foldl (fun a e => addHist e.keyword (histOf e) a) acc).lookup kw
        = (if records.any (fun e => e.keyword == kw) then
            some (rankedHistOf records kw) else none) := by
  induction records with
  | nil =>
      intro acc kw hg
      simp [hg]
  | cons e rest ih =>
      intro acc kw hg
      rw [List.foldl_cons]
      by_cases he : e.keyword = kw
      · have h1 : (addHist e.keyword (histOf e) acc).lookup kw =
            some ([] ++ histOf e) := by
          rw [he, addHist_lookup_self, hg]
          rfl
        rw [buildHistories_go_lookup_some rest _ _ _ h1, rankedHistOf_cons]
        simp [he, List.append_assoc]
      · have h1 : (addHist e.keyword (histOf e) acc).lookup kw = none := by
          rw [addHist_lookup_other _ _ _ _ (Ne.symm he)]
          exact hg
        rw [ih _ _ h1, rankedHistOf_cons]
        simp [he]

lemma lookup_map_snd {α β : Type} (l : List (String × α)) (f : α → β)
    (kw : String) :
    (l.map fun p => (p.1, f p.2)).lookup kw = (l.lookup kw).map f := by
  induction l with
  | nil => rfl
  | cons p rest ih =>
      obtain ⟨k, v⟩ := p
      simp only [List.map_cons, List.lookup]
      cases hkk : kw == k with
      | true => rfl
      | false => exact ih

lemma getKeywordSummary_lookup (records : List RankingRecord) (kw : String) :
    (getKeywordSummary records).lookup kw =
      (if records.any (fun e => e.keyword == kw) then
        some (summarize (rankedHistOf records kw)) else none) := by
  rw [getKeywordSummary, lookup_map_snd, buildHistories,
    buildHistories_go_lookup_none records [] kw rfl]
  by_cases h : records.any (fun e => e.keyword == kw) = true <;> simp [h]

lemma rankedHistOf_eq_ranked_records (kw : String) :
    ∀ records : List RankingRecord, (∀ e ∈ records, e.rank ≠ some 0) →
      rankedHistOf records kw =
        (records.filter fun e => e.keyword == kw && e.rank != none).map
          (fun e => ({ rank := e.rank.getD 0, date := e.timestamp } :
            HistEntry)) := by
  intro records
  induction records with
  | nil => intro _; rfl
  | cons e rest ih =>
      intro hwf
      have hwf' : ∀ x ∈ rest, x.rank ≠ some 0 := fun x hx =>
        hwf x (List.mem_cons_of_mem e hx)
      rw [rankedHistOf_cons]
      by_cases hk : e.keyword = kw
      · cases hr : e.rank with
        | none =>
            simp [List.filter_cons, hk, hr, histOf, jsTruthyNum, ih hwf']
        | some n =>
            have hn : n ≠ 0 := by
              intro h0
              exact hwf e (List.mem_cons_self e rest) (by rw [hr, h0])
            simp [List.filter_cons, hk, hr, histOf, jsTruthyNum, hn, ih hwf']
      · simp [List.filter_cons, hk, ih hwf']

lemma rankedHistOf_eq_nil (kw : String) :
    ∀ records : List RankingRecord,
      (∀ e ∈ records, e.keyword = kw → e.rank = none) →
      rankedHistOf records kw = [] := by
  intro records
  induction records with
  | nil => intro _; rfl
  | cons e rest ih =>
      intro hnull
      rw [rankedHistOf_cons,
        ih (fun x hx hkx => hnull x (List.mem_cons_of_mem e hx) hkx)]
      by_cases hk : e.keyword = kw
      · have he := hnull e (List.mem_cons_self e rest) hk
        simp [hk, histOf, jsTruthyNum, he]
      · simp [hk]

lemma sortHistDesc_perm (l : List HistEntry) : (sortHistDesc l).Perm l :=
  List.perm_insertionSort _ l

lemma sortHistDesc_sorted (l : List HistEntry) :
    List.Pairwise (fun a b => b.date ≤ a.date) (sortHistDesc l) :=
  List.sorted_insertionSort _ l

lemma summarize_history (h : List HistEntry) :
    (summarize h).history = sortHistDesc h := by
  rw [summarize]
  rcases hs : sortHistDesc h with - | ⟨top, rest⟩ <;> simp

lemma summarize_eq_of_sort_nil (h : List HistEntry)
    (hs : sortHistDesc h = []) :
    summarize h =
      { current := none, best := none, worst := none, history := [] } := by
  rw [summarize, hs]

lemma summarize_eq_of_sort (h : List HistEntry) (top : HistEntry)
    (rest : List HistEntry) (hs : sortHistDesc h = top :: rest) :
    summarize h =
      { current := some top.rank,
        best := some ((rest.map HistEntry.rank).foldl Nat.min top.rank),
        worst := some ((rest.map HistEntry.rank).foldl Nat.max top.rank),
        history := top :: rest } := by
  rw [summarize, hs]

lemma foldl_min_le (l : List Nat) :
    ∀ a : Nat, l.foldl Nat.min a ≤ a ∧ ∀ x ∈ l, l.foldl Nat.min a ≤ x := by
  induction l with
  | nil =>
      intro a
      exact ⟨Nat.le_refl a, by simp⟩
  | cons x xs ih =>
      intro a
      rw [List.foldl_cons]
      refine ⟨Nat.le_trans (ih (Nat.min a x)).1 (Nat.min_le_left a x), ?_⟩
      intro y hy
      rcases List.mem_cons.mp hy with rfl | hy'
      · exact Nat.le_trans (ih (Nat.min a y)).1 (Nat.min_le_right a y)
      · exact (ih (Nat.min a x)).2 y hy'

lemma foldl_min_mem (l : List Nat) :
    ∀ a : Nat, l.foldl Nat.min a = a ∨ l.foldl Nat.min a ∈ l := by
  induction l with
  | nil => intro a; exact Or.inl rfl
  | cons x xs ih =>
      intro a
      rw [List.foldl_cons]
      rcases ih (Nat.min a x) with h | h
      · rw [h]
        rcases Nat.le_total a x with hax | hxa
        · exact Or.inl (by simp [Nat.min_def, hax])
        · exact Or.inr (by
            have hmin : Nat.min a x = x := by
              simp [Nat.min_def]
              omega
            rw [hmin]
            exact List.mem_cons_self x xs)
      · exact Or.inr (List.mem_cons_of_mem x h)

lemma foldl_max_ge (l : List Nat) :
    ∀ a : Nat, a ≤ l.foldl Nat.max a ∧ ∀ x ∈ l, x ≤ l.foldl Nat.max a := by
  induction l with
  | nil =>
      intro a
      exact ⟨Nat.le_refl a, by simp⟩
  | cons x xs ih =>
      intro a
      rw [List.foldl_cons]
      refine ⟨Nat.le_trans (Nat.le_max_left a x) (ih (Nat.max a x)).1, ?_⟩
      intro y hy
      rcases List.mem_cons.mp hy with rfl | hy'
      · exact Nat.le_trans (Nat.le_max_right a y) (ih (Nat.max a y)).1
      · exact (ih (Nat.max a x)).2 y hy'

lemma foldl_max_mem (l : List Nat) :
    ∀ a : Nat, l.foldl Nat.max a = a ∨ l.foldl Nat.max a ∈ l := by
  induction l with
  | nil => intro a; exact Or.inl rfl
  | cons x xs ih =>
      intro a
      rw [List.foldl_cons]
      rcases ih (Nat.max a x) with h | h
      · rw [h]
        rcases Nat.le_total a x with hax | hxa
        · exact Or.inr (by
            have hmax : Nat.max a x = x := by
              simp [Nat.max_def]
              omega
            rw [hmax]
            exact List.mem_cons_self x xs)
        · exact Or.inl (by simp [Nat.max_def]; omega)
      · exact Or.inr (List.mem_cons_of_mem x h)

/-- C4: for every store state whose ranks are well-formed (a stored rank is
never 0 — `saveResults` writes null or a 1-based position), every keyword
summary has a history that is exactly the `{rank, date}` projections of that
keyword's records with non-null rank, sorted most-recent-first; its current
is the most recent rank in that history, best is the numeric minimum, worst
the numeric maximum; and a keyword all of whose records have null rank gets
null current/best/worst and an empty history. -/
theorem getKeywordSummary_correct (records : List RankingRecord) (kw : String)
    (s : KeywordSummary) (hwf : ∀ e ∈ records, e.rank ≠ some 0)
    (hs : (getKeywordSummary records).lookup kw = some s) :
    s.history.Perm
      ((records.filter fun e => e.keyword == kw && e.rank != none).map
        fun e => ({ rank := e.rank.getD 0, date := e.timestamp } : HistEntry)) ∧
    List.Pairwise (fun a b => b.date ≤ a.date) s.history ∧
    ((∀ e ∈ records, e.keyword = kw → e.rank = none) →
      s = { current := none, best := none, worst := none, history := [] }) ∧
    (∀ top rest, s.history = top :: rest →
      s.current = some top.rank ∧ ∀ x ∈ s.history, x.date ≤ top.date) ∧
    (∀ b, s.best = some b →
      b ∈ s.history.map HistEntry.rank ∧
        ∀ r ∈ s.history.map HistEntry.rank, b ≤ r) ∧
    (∀ w, s.worst = some w →
      w ∈ s.history.map HistEntry.rank ∧
        ∀ r ∈ s.history.map HistEntry.rank, r ≤ w) := by
  rw [getKeywordSummary_lookup] at hs
  by_cases hany : records.any (fun e => e.keyword == kw) = true
  case neg =>
    rw [if_neg hany] at hs
    cases hs
  case pos =>
  rw [if_pos hany] at hs
  have hsum : summarize (rankedHistOf records kw) = s :=
    Option.some.injEq _ _ ▸ hs
  subst hsum
  have hhist := summarize_history (rankedHistOf records kw)
  refine ⟨?_, ?_, ?_, ?_, ?_, ?_⟩
  · rw [hhist, ← rankedHistOf_eq_ranked_records kw records hwf]
    exact sortHistDesc_perm (rankedHistOf records kw)
  · rw [hhist]
    exact sortHistDesc_sorted (rankedHistOf records kw)
  · intro hnull
    rw [rankedHistOf_eq_nil kw records hnull, summarize_eq_of_sort_nil [] rfl]
  · intro top rest htop
    rw [hhist] at htop
    constructor
    · rw [summarize_eq_of_sort _ top rest htop]
    · have hp := sortHistDesc_sorted (rankedHistOf records kw)
      rw [htop] at hp
      obtain ⟨hrel, -⟩ := List.pairwise_cons.mp hp
      intro x hx
      rw [hhist, htop] at hx
      rcases List.mem_cons.mp hx with rfl | hx'
      · exact Nat.le_refl x.date
      · exact hrel x hx'
  · intro b hb
    rcases htop : sortHistDesc (rankedHistOf records kw) with - | ⟨top, rest⟩
    · rw [summarize_eq_of_sort_nil _ htop] at hb
      simp at hb
    · rw [summarize_eq_of_sort _ top rest htop] at hb
      have hbv := Option.some.inj hb
      rw [hhist, htop, ← hbv, List.map_cons]
      constructor
      · rcases foldl_min_mem (rest.map HistEntry.rank) top.rank with h | h
        · rw [h]
          exact List.mem_cons_self _ _
        · exact List.mem_cons_of_mem _ h
      · intro r hr
        rcases List.mem_cons.mp hr with rfl | hr'
        · exact (foldl_min_le (rest.map HistEntry.rank) top.rank).1
        · exact (foldl_min_le (rest.map HistEntry.rank) top.rank).2 r hr'
  · intro w hw
    rcases htop : sortHistDesc (rankedHistOf records kw) with - | ⟨top, rest⟩
    · rw [summarize_eq_of_sort_nil _ htop] at hw
      simp at hw
    · rw [summarize_eq_of_sort _ top rest htop] at hw
      have hwv := Option.some.inj hw
      rw [hhist, htop, ← hwv, List.map_cons]
      constructor
      · rcases foldl_max_mem (rest.map HistEntry.rank) top.rank with h | h
        · rw [h]
          exact List.mem_cons_self _ _
        · exact List.mem_cons_of_mem _ h
      · intro r hr
        rcases List.mem_cons.mp hr with rfl | hr'
        · exact (foldl_max_ge (rest.map HistEntry.rank) top.rank).1
        · exact (foldl_max_ge (rest.map HistEntry.rank) top.rank).2 r hr'

/-- A demonstration store for C4: one keyword observed at ranks 9, 2, 7 with
increasing timestamps. -/
def demoStore : List RankingRecord :=
  [{ keyword := "kw", rank := some 9, title := some "a", url := some "u1",
     timestamp := 1, snippet := some "" },
   { keyword := "kw", rank := some 2, title := some "b", url := some "u2",
     timestamp := 2, snippet := some "" },
   { keyword := "kw", rank := some 7, title := some "c", url := some "u3",
     timestamp := 3, snippet := some "" }]

/-- The summary `getKeywordSummary` computes on `demoStore`: most-recent-first
history, current 7, best 2, worst 9. -/
def demoSummary : KeywordSummary :=
  { current := some 7, best := some 2, worst := some 9,
    history := [{ rank := 7, date := 3 }, { rank := 2, date := 2 },
                { rank := 9, date := 1 }] }

/-- A concrete run of C4 on ranks [9, 2, 7]: current is the most recent rank 7
and the history is sorted most-recent-first. -/
theorem getKeywordSummary_correct_witness :
    (getKeywordSummary demoStore).lookup "kw" = some demoSummary ∧
    demoSummary.current = some 7 ∧
    List.Pairwise (fun a b => b.date ≤ a.date) demoSummary.history := by
  have h := getKeywordSummary_correct demoStore "kw" demoSummary
    (by decide) (by decide)
  exact ⟨by decide,
    (h.2.2.2.1 { rank := 7, date := 3 }
      [{ rank := 2, date := 2 }, { rank := 9, date := 1 }] rfl).1,
    h.2.1⟩

end RankingAgent
